import Mathlib

/-!
Verification of the bibliography-parsing core of build_publications_json.py.

The Python source is shallowly embedded below.  Strings are modelled as
Lean `String` (a wrapper around `List Char`); most operations are defined
on `List Char` and lifted.  Python regular expressions that appear in the
source are deterministic for the concrete patterns used, and are embedded
as the equivalent direct string scans; each embedding carries a comment
naming the source construct it translates.  Whitespace predicates model
the ASCII whitespace characters, which are the only whitespace characters
exercised by the inputs considered here.
-/

/-- ASCII whitespace, modelling Python str.strip and the regex class \s
on the ASCII range. -/
def pyIsSpace (c : Char) : Bool :=
  c = ' ' || c = '\t' || c = '\n' || c = '\r' || c = '\x0b' || c = '\x0c'

/-- Word characters of the regex class \w on the ASCII range. -/
def wordChar (c : Char) : Bool :=
  c.isAlphanum || c = '_'

/-- Python str.strip on character lists: drop whitespace from both ends. -/
def stripL (l : List Char) : List Char :=
  ((l.dropWhile pyIsSpace).reverse.dropWhile pyIsSpace).reverse

/-- Collapse adjacent duplicate spaces, keeping the first of each run. -/
def squeezeSpaces : List Char → List Char
  | [] => []
  | [c] => [c]
  | a :: b :: rest =>
    if a = ' ' && b = ' ' then squeezeSpaces (b :: rest)
    else a :: squeezeSpaces (b :: rest)

/-- re.sub of one or more whitespace characters by a single space: map
every whitespace character to a space, then squeeze runs of spaces. -/
def collapseWsL (l : List Char) : List Char :=
  squeezeSpaces (l.map (fun c => if pyIsSpace c then ' ' else c))

/-- Fuel-driven worker for Python str.replace.  Each step consumes at
least one character of the remaining text, so fuel equal to the length of
the text suffices; the wrapper passes exactly that. -/
def pyReplaceGo (pat new : List Char) : Nat → List Char → List Char
  | _, [] => []
  | 0, s => s
  | fuel + 1, c :: rest =>
    if pat.isPrefixOf (c :: rest) then
      new ++ pyReplaceGo pat new fuel ((c :: rest).drop pat.length)
    else
      c :: pyReplaceGo pat new fuel rest

/-- Python str.replace(pat, new): replace every non-overlapping occurrence,
left to right.  The empty-pattern case interleaves the replacement around
every character, as Python does; the source only uses non-empty patterns. -/
def pyReplaceL (pat new s : List Char) : List Char :=
  if pat = [] then new ++ s.flatMap (fun c => c :: new)
  else pyReplaceGo pat new s.length s

/-- Split at the first occurrence of a character: some (before, after)
with the separator removed, or none when the character does not occur. -/
def splitFirstChar (c : Char) : List Char → Option (List Char × List Char)
  | [] => none
  | a :: rest =>
    if a = c then some ([], rest)
    else (splitFirstChar c rest).map (fun p => (a :: p.1, p.2))

/-- Split at the first occurrence of a substring: some (before, after)
with the pattern removed, or none when the pattern does not occur. -/
def splitFirstSubstr (pat : List Char) : List Char → Option (List Char × List Char)
  | [] => if pat.isPrefixOf [] then some ([], []) else none
  | c :: rest =>
    if pat.isPrefixOf (c :: rest) then some ([], (c :: rest).drop pat.length)
    else
      match splitFirstSubstr pat rest with
      | some (b, r) => some (c :: b, r)
      | none => none

/-- Fuel-driven worker for Python str.split(sep) with a non-empty sep.
Each step consumes at least the separator, so fuel equal to the length of
the text suffices. -/
def splitSubstrGo (sep : List Char) : Nat → List Char → List (List Char)
  | 0, s => [s]
  | fuel + 1, s =>
    match splitFirstSubstr sep s with
    | none => [s]
    | some (b, r) => b :: splitSubstrGo sep fuel r

/-- Python str.split(sep) for a non-empty separator.  Python raises on an
empty separator; that case is never reached by the source and is mapped
to the whole text. -/
def splitSubstrL (sep s : List Char) : List (List Char) :=
  if sep = [] then [s] else splitSubstrGo sep (s.length + 1) s

/-- Python str.startswith as a Boolean on strings. -/
def startsWithS (p s : String) : Bool :=
  p.data.isPrefixOf s.data

/-- Python slicing s[n:] on strings. -/
def dropS (n : Nat) (s : String) : String :=
  String.mk (s.data.drop n)

/-- strip_wrapping from the source: strip the value, then remove exactly
one outermost brace pair or quote pair when present.  The Python
None-guard (v or "") is vacuous for total strings. -/
def strip_wrapping (v : String) : String :=
  let w := stripL v.data
  if (w.head? = some '\x7b' ∧ w.getLast? = some '\x7d')
      ∨ (w.head? = some '"' ∧ w.getLast? = some '"') then
    String.mk ((w.drop 1).dropLast)
  else
    String.mk w

/-- clean_tex from the source: strip_wrapping, remove every brace, replace
the two-character escaped ampersand by an ampersand, collapse whitespace
runs to single spaces and strip the ends. -/
def clean_tex (v : String) : String :=
  let w := (strip_wrapping v).data
  let w := w.filter (fun c => !(c = '\x7b') && !(c = '\x7d'))
  let w := pyReplaceL ['\\', '&'] ['&'] w
  String.mk (stripL (collapseWsL w))

/-- split_tags from the source: clean_tex, split on commas, strip each
piece, drop empty pieces. -/
def split_tags (v : String) : List String :=
  let w := clean_tex v
  if w = "" then []
  else ((splitSubstrL [','] w.data).map (fun x => String.mk (stripL x))).filter (· ≠ "")

/-- The replace chain on line 50 of the source: upgrade every occurrence
of the http doi resolver to https (the second replace in the source line
is a literal self-replacement and is kept). -/
def pyReplaceDoi (s : String) : String :=
  let s := String.mk (pyReplaceL ("http://doi.org/").data ("https://doi.org/").data s.data)
  String.mk (pyReplaceL ("https://doi.org/").data ("https://doi.org/").data s.data)

/-- re.sub of an anchored leading http or https scheme by the empty
string: remove one leading scheme when present. -/
def stripSchemeHttp (s : String) : String :=
  if startsWithS "https://" s then dropS 8 s
  else if startsWithS "http://" s then dropS 7 s
  else s

/-- fix_doi_url from the source (named canonicalize_link in the
specification). -/
def fix_doi_url (raw : String) : String :=
  let s := clean_tex raw
  if s = "" then ""
  else
    let s := pyReplaceDoi s
    if startsWithS "https://doi.org/" s then s
    else
      let s := stripSchemeHttp s
      if startsWithS "10." s then "https://doi.org/" ++ s
      else s

/-- Python fields.get(k, "") on the association list built by the field
splitter: the value of the last binding of the key, or the empty string.
Later bindings shadow earlier ones, matching dict assignment. -/
def getF (fields : List (String × String)) (k : String) : String :=
  (((fields.reverse.find? (fun kv => kv.1 == k)).map (fun kv => kv.2)).getD "")

/-- Python or on strings: the first operand when truthy (non-empty), else
the second. -/
def pyOr (a b : String) : String :=
  if a = "" then b else a

/-- Python or on string lists: the first operand when non-empty, else the
second. -/
def pyOrList (a b : List String) : List String :=
  if a = [] then b else a

/-- pick_date from the source. -/
def pick_date (fields : List (String × String)) : String :=
  let d := clean_tex (getF fields "date")
  if d ≠ "" then d
  else
    let y := clean_tex (getF fields "year")
    if y ≠ "" then y ++ "-01-01" else ""

/-- pick_year from the source. -/
def pick_year (fields : List (String × String)) : String :=
  let y := clean_tex (getF fields "year")
  if y ≠ "" then y
  else
    let d := clean_tex (getF fields "date")
    if 4 ≤ d.data.length then String.mk (d.data.take 4) else ""

/-- pick_venue from the source.  Python dict.get with no default yields
None for a missing key; None and the empty string are both falsy in the
or-chain, so the empty-string default is equivalent. -/
def pick_venue (fields : List (String × String)) : String :=
  clean_tex (pyOr (getF fields "journaltitle")
    (pyOr (getF fields "journal")
      (pyOr (getF fields "booktitle")
        (pyOr (getF fields "publisher") ""))))

/-- parse_authors from the source: clean the author field, split on the
five-character separator, strip each piece and drop empty pieces. -/
def parse_authors (fields : List (String × String)) : List String :=
  let a := clean_tex (getF fields "author")
  if a = "" then []
  else ((splitSubstrL (" and ").data a.data).map (fun p => String.mk (stripL p))).filter (· ≠ "")

/-- State of the field-splitter scan in parse_fields: accumulated parts,
current buffer, brace depth and quote flag.  The depth is an integer as
in Python; the guard in the step keeps it non-negative. -/
structure PFState where
  parts : List (List Char)
  buf : List Char
  depth : Int
  in_quotes : Bool
deriving DecidableEq

/-- Initial field-splitter state. -/
def pfStart : PFState :=
  { parts := [], buf := [], depth := 0, in_quotes := false }

/-- One character of the parse_fields scan: toggle the quote flag on an
unnested quote, adjust the depth on unquoted braces (a closing brace at
depth zero is ignored), then either flush the buffer as a part on a
separating comma (depth zero, outside quotes) or append the character. -/
def pfStep (st : PFState) (ch : Char) : PFState :=
  let st1 :=
    if ch = '"' ∧ st.depth = 0 then { st with in_quotes := !st.in_quotes }
    else if ch = '\x7b' ∧ st.in_quotes = false then { st with depth := st.depth + 1 }
    else if ch = '\x7d' ∧ st.in_quotes = false ∧ 0 < st.depth then
      { st with depth := st.depth - 1 }
    else st
  if ch = ',' ∧ st1.depth = 0 ∧ st1.in_quotes = false then
    let part := stripL st1.buf
    { st1 with parts := st1.parts ++ (if part = [] then [] else [part]), buf := [] }
  else
    { st1 with buf := st1.buf ++ [ch] }

/-- The candidate parts of one entry body: run the scan over the body and
append the stripped tail buffer when non-empty. -/
def pfParts (body : List Char) : List (List Char) :=
  let fin := body.foldl pfStep pfStart
  let tail := stripL fin.buf
  fin.parts ++ (if tail = [] then [] else [tail])

/-- parse_fields from the source: split the body into parts, then split
each part at its first equals sign into a lower-cased stripped key and a
stripped raw value.  A part without an equals sign is skipped, which is
exactly the case in which the split fails. -/
def parse_fields (body : String) : List (String × String) :=
  (pfParts body.data).foldl
    (fun fields part =>
      match splitFirstChar '=' part with
      | none => fields
      | some (k, v) =>
        fields ++ [(String.mk ((stripL k).map Char.toLower), String.mk (stripL v))])
    []

/-- One match of ENTRY_RE: the raw captured groups (entry type, raw
identifier segment, body) and the text following the match. -/
structure RawMatch where
  typ : List Char
  ident : List Char
  body : List Char
  rest : List Char
deriving DecidableEq

/-- The terminator of an entry body in ENTRY_RE: a newline immediately
followed by a closing brace. -/
def nlBrace : List Char := ['\n', '\x7d']

/-- Attempt to match ENTRY_RE at the start of the text.  The regex
at-sign, word-character group, whitespace, opening brace, non-comma
group, comma and lazy body up to a newline-brace pair decompose
deterministically: each greedy piece takes its maximal run (no other
backtracking choice can succeed, since the following literal cannot match
a character of the preceding class), and the lazy body stops at the first
newline-brace occurrence.  The identifier group captured by the regex
differs from the raw segment before the comma only in leading whitespace
(and degenerates to the last whitespace character when the segment is all
whitespace); the caller strips the identifier, and stripping the raw
segment gives the same result in every case. -/
def matchEntryAt : List Char → Option RawMatch
  | [] => none
  | c :: s1 =>
    if c = '@' then
      let w := s1.takeWhile wordChar
      if w = [] then none
      else
        match (s1.dropWhile wordChar).dropWhile pyIsSpace with
        | '\x7b' :: s4 =>
          let seg := s4.takeWhile (fun ch => !(ch = ','))
          if seg = [] then none
          else
            match s4.dropWhile (fun ch => !(ch = ',')) with
            | ',' :: s5 =>
              match splitFirstSubstr nlBrace s5 with
              | some (b, r) => some { typ := w, ident := seg, body := b, rest := r }
              | none => none
            | _ => none
        | _ => none
    else none

/-- The leftmost ENTRY_RE match in the text: try every start position
from left to right, as the regex engine does. -/
def findEntryFrom : List Char → Option RawMatch
  | [] => none
  | c :: t =>
    match matchEntryAt (c :: t) with
    | some r => some r
    | none => findEntryFrom t

/-- Fuel-driven worker for finditer over ENTRY_RE: after each match the
search resumes at the end of the match.  Every match consumes at least
one character (lemma findEntryFrom_rest_lt below), so fuel exceeding the
length of the text suffices; the wrapper passes length plus one. -/
def entryMatchesGo : Nat → List Char → List RawMatch
  | 0, _ => []
  | fuel + 1, s =>
    match findEntryFrom s with
    | none => []
    | some r => r :: entryMatchesGo fuel r.rest

/-- All ENTRY_RE matches of the text, in order. -/
def entryMatches (s : List Char) : List RawMatch :=
  entryMatchesGo (s.length + 1) s

/-- The output record of the parsing core, with the fields of the dict
literal built by parse_bibtex. -/
structure Record where
  id : String
  type : String
  title : String
  authors : List String
  venue : String
  year : String
  date : String
  doi_url : String
  note : String
  keywords : List String
deriving DecidableEq

/-- A value of one key of the emitted record dict: a string or a list of
strings. -/
inductive FieldVal where
  | s (v : String)
  | l (v : List String)
deriving DecidableEq

/-- The emitted record as the key-value list of the dict literal in
parse_bibtex, in source order. -/
def record_items (r : Record) : List (String × FieldVal) :=
  [("id", FieldVal.s r.id), ("type", FieldVal.s r.type), ("title", FieldVal.s r.title),
    ("authors", FieldVal.l r.authors), ("venue", FieldVal.s r.venue),
    ("year", FieldVal.s r.year), ("date", FieldVal.s r.date),
    ("doi_url", FieldVal.s r.doi_url), ("note", FieldVal.s r.note),
    ("keywords", FieldVal.l r.keywords)]

/-- The record parse_bibtex builds for one match from its parsed fields:
the dict literal of the source, with the identifier stripped and the
entry type lower-cased as in the source. -/
def mkItem (m : RawMatch) (fields : List (String × String)) : Record :=
  { id := String.mk (stripL m.ident)
    type := String.mk (m.typ.map Char.toLower)
    title := clean_tex (getF fields "title")
    authors := parse_authors fields
    venue := pick_venue fields
    year := pick_year fields
    date := pick_date fields
    doi_url := fix_doi_url (pyOr (getF fields "doi") (getF fields "doi_url"))
    note := clean_tex (pyOr (getF fields "note") (getF fields "pubstate"))
    keywords := pyOrList (split_tags (getF fields "keywords")) (split_tags (getF fields "themes")) }

/-- The per-entry step of the parse_bibtex loop: parse the fields, skip
the entry when the cleaned title is empty, otherwise emit its record. -/
def buildItem (m : RawMatch) : Option Record :=
  let fields := parse_fields (String.mk m.body)
  if clean_tex (getF fields "title") = "" then none
  else some (mkItem m fields)

/-- parse_bibtex from the source: extract the entries and collect the
records of the entries that pass the title filter, in order.  filterMap
translates the append loop with its continue. -/
def parse_bibtex (text : String) : List Record :=
  (entryMatches text.data).filterMap buildItem

/-- Variant of the parse_fields part loop in which the only fallible
Python operation — unpacking the result of part.split at the first equals
sign into two names — is modelled as an Option: the membership test of
the source guards the part, and reaching a failed unpack behind that
guard would be the ValueError none.  Parts are processed in order. -/
def pfcFold : List (List Char) → List (String × String) → Option (List (String × String))
  | [], fields => some fields
  | part :: ps, fields =>
    if '=' ∈ part then
      match splitFirstChar '=' part with
      | none => none
      | some (k, v) =>
        pfcFold ps (fields ++ [(String.mk ((stripL k).map Char.toLower), String.mk (stripL v))])
    else pfcFold ps fields

/-- parse_fields with the fallible unpack made explicit. -/
def parse_fieldsChecked (body : String) : Option (List (String × String)) :=
  pfcFold (pfParts body.data) []

/-- The parse_bibtex loop with the fallible field split made explicit:
an exception anywhere aborts the whole run with none. -/
def pbcGo : List RawMatch → List Record → Option (List Record)
  | [], out => some out
  | m :: ms, out =>
    match parse_fieldsChecked (String.mk m.body) with
    | none => none
    | some fields =>
      if clean_tex (getF fields "title") = "" then pbcGo ms out
      else pbcGo ms (out ++ [mkItem m fields])

/-- parse_bibtex with every modelled exception point explicit. -/
def parse_bibtexChecked (text : String) : Option (List Record) :=
  pbcGo (entryMatches text.data) []

/-- Modelled from the spec: the entry-body boundary rule as the claim
words it, for comparison with the extractor of the source.  Given the
text after the identifier comma, split it into lines, take the LAST line
beyond the first that consists of a closing brace followed only by
whitespace (a closing brace that is the sole non-whitespace content of
its line, immediately preceded by a newline), and return the text before
that line.  On the inputs evaluated here every such candidate line is
also unmatched relative to the opening brace, so the unmatched qualifier
of the claim does not select a different candidate. -/
def specSoleBraceBody (afterComma : List Char) : Option (List Char) :=
  let lines := splitSubstrL ['\n'] afterComma
  let isTerm := fun (ln : List Char) =>
    match ln with
    | '\x7d' :: r => r.all pyIsSpace
    | _ => false
  let idxs := (List.range lines.length).filter (fun j => decide (1 ≤ j) && isTerm (lines.getD j []))
  match idxs.getLast? with
  | none => none
  | some j => some (List.intercalate ['\n'] (lines.take j))

/-- A concrete one-entry document whose entry has a pubstate field. -/
def docForthcoming : String :=
  "@misc\x7bk,\ntitle = \x7bT\x7d,\npubstate = \x7bforthcoming\x7d\n\x7d\n"

/-- The record parse_bibtex emits for docForthcoming. -/
def recForthcoming : Record :=
  { id := "k"
    type := "misc"
    title := "T"
    authors := []
    venue := ""
    year := ""
    date := ""
    doi_url := ""
    note := "forthcoming"
    keywords := [] }

/-- A concrete one-entry document with a titled entry. -/
def docTitleT : String := "@a\x7bx,\ntitle = \x7bT\x7d\n\x7d\n"

/-- The single ENTRY_RE match of docTitleT. -/
def matchTitleT : RawMatch :=
  { typ := ("a").data
    ident := ("x").data
    body := ("\ntitle = \x7bT\x7d").data
    rest := ("\n").data }

/-- The record parse_bibtex emits for docTitleT. -/
def recTitleT : Record :=
  { id := "x"
    type := "a"
    title := "T"
    authors := []
    venue := ""
    year := ""
    date := ""
    doi_url := ""
    note := ""
    keywords := [] }

/-- A field-splitter state at brace depth one, as inside a braced value. -/
def pfDepthOne : PFState :=
  { parts := [], buf := [], depth := 1, in_quotes := false }

/-- A concrete one-entry document whose entry has a year and no date. -/
def docYear : String :=
  "@article\x7bk,\ntitle = \x7bT\x7d,\nyear = \x7b2020\x7d\n\x7d\n"

/-- The single ENTRY_RE match of docYear. -/
def matchYear : RawMatch :=
  { typ := ("article").data
    ident := ("k").data
    body := ("\ntitle = \x7bT\x7d,\nyear = \x7b2020\x7d").data
    rest := ("\n").data }

/-- The record parse_bibtex emits for docYear. -/
def recYear : Record :=
  { id := "k"
    type := "article"
    title := "T"
    authors := []
    venue := ""
    year := "2020"
    date := "2020-01-01"
    doi_url := ""
    note := ""
    keywords := [] }

example : clean_tex "  a   b " = "a b" := by decide

example : clean_tex "\x7bSome \x7bNested\x7d Title\x7d" = "Some Nested Title" := by decide

example : fix_doi_url "10.1000/xyz123" = "https://doi.org/10.1000/xyz123" := by decide

example : fix_doi_url "https://doi.org/10.1000/xyz123" = "https://doi.org/10.1000/xyz123" := by
  decide

example : fix_doi_url "not a url" = "not a url" := by decide

example : fix_doi_url "https://example.com/x" = "example.com/x" := by decide

example : fix_doi_url "http://https://10.1" = "https://10.1" := by decide

example : fix_doi_url "https://10.1" = "https://doi.org/10.1" := by decide

example : split_tags "\x7ba, b, c\x7d" = ["a", "b", "c"] := by decide

example : parse_fields "keywords = \x7ba, b, c\x7d" = [("keywords", "\x7ba, b, c\x7d")] := by
  decide

example : parse_fields "a=1\x7d,b=2" = [("a", "1\x7d"), ("b", "2")] := by decide

example : parse_authors [("author", "\x7bSmith, J. and Doe, A.\x7d")] = ["Smith, J.", "Doe, A."] := by
  decide

example :
    specSoleBraceBody ("\nf=\x7bv\x7d,\n\x7d tail\n\x7d\n").data
      = some ("\nf=\x7bv\x7d,\n\x7d tail").data := by decide

example :
    (entryMatches ("@a\x7bx,\nf=\x7bv\x7d,\n\x7d tail\n\x7d\n").data).map (fun m => m.body)
      = [("\nf=\x7bv\x7d,").data] := by decide

theorem dropWhile_length_le (p : Char → Bool) (l : List Char) :
    (l.dropWhile p).length ≤ l.length := by
  induction l with
  | nil => simp [List.dropWhile]
  | cons a t ih =>
    simp only [List.dropWhile]
    split
    · simp only [List.length_cons]; omega
    · simp

theorem splitFirstSubstr_eq (pat : List Char) :
    ∀ s b r, splitFirstSubstr pat s = some (b, r) → s = b ++ pat ++ r := by
  intro s
  induction s with
  | nil =>
    intro b r h
    simp only [splitFirstSubstr] at h
    split at h
    · rename_i hp
      have hpnil : pat = [] := List.prefix_nil.mp (List.isPrefixOf_iff_prefix.mp hp)
      simp only [Option.some.injEq, Prod.mk.injEq] at h
      simp [hpnil, ← h.1, ← h.2]
    · exact absurd h (by simp)
  | cons c rest ih =>
    intro b r h
    simp only [splitFirstSubstr] at h
    split at h
    · rename_i hp
      obtain ⟨t, ht⟩ := List.isPrefixOf_iff_prefix.mp hp
      simp only [Option.some.injEq, Prod.mk.injEq] at h
      rw [← h.1, ← h.2, ← ht, List.drop_left]
      simp
    · rename_i hp
      cases hrec : splitFirstSubstr pat rest with
      | none => rw [hrec] at h; exact absurd h (by simp)
      | some p =>
        obtain ⟨b', r'⟩ := p
        rw [hrec] at h
        simp only [Option.some.injEq, Prod.mk.injEq] at h
        rw [← h.1, ← h.2]
        have := ih b' r' hrec
        simp [this]

theorem splitFirstSubstr_min (pat : List Char) :
    ∀ s b r, splitFirstSubstr pat s = some (b, r) →
      ∀ i, i < b.length → pat.isPrefixOf (s.drop i) = false := by
  intro s
  induction s with
  | nil =>
    intro b r h
    simp only [splitFirstSubstr] at h
    split at h
    · simp only [Option.some.injEq, Prod.mk.injEq] at h
      intro i hi
      rw [← h.1] at hi
      simp at hi
    · exact absurd h (by simp)
  | cons c rest ih =>
    intro b r h
    simp only [splitFirstSubstr] at h
    split at h
    · simp only [Option.some.injEq, Prod.mk.injEq] at h
      intro i hi
      rw [← h.1] at hi
      simp at hi
    · rename_i hp
      cases hrec : splitFirstSubstr pat rest with
      | none => rw [hrec] at h; exact absurd h (by simp)
      | some p =>
        obtain ⟨b', r'⟩ := p
        rw [hrec] at h
        simp only [Option.some.injEq, Prod.mk.injEq] at h
        intro i hi
        cases i with
        | zero =>
          simp only [List.drop_zero]
          exact Bool.eq_false_iff.mpr hp
        | succ j =>
          simp only [List.drop_succ_cons]
          have hj : j < b'.length := by
            rw [← h.1] at hi
            simp only [List.length_cons] at hi
            omega
          exact ih b' r' hrec j hj

theorem splitFirstSubstr_length (pat : List Char) (s b r : List Char)
    (h : splitFirstSubstr pat s = some (b, r)) :
    s.length = b.length + pat.length + r.length := by
  have := splitFirstSubstr_eq pat s b r h
  simp [this]
  omega

theorem matchEntryAt_rest_lt :
    ∀ s m, matchEntryAt s = some m → m.rest.length < s.length := by
  intro s m h
  cases s with
  | nil => exact absurd h (by simp [matchEntryAt])
  | cons c s1 =>
    simp only [matchEntryAt] at h
    split at h
    · split at h
      · exact absurd h (by simp)
      · split at h
        · rename_i s4 heq4
          split at h
          · exact absurd h (by simp)
          · split at h
            · rename_i s5 heq5
              split at h
              · rename_i p b r heqs
                simp only [Option.some.injEq] at h
                have hlen := splitFirstSubstr_length nlBrace s5 b r heqs
                have h4 : s4.length + 1 ≤ s1.length := by
                  have h1 : ((s1.dropWhile wordChar).dropWhile pyIsSpace).length
                      ≤ (s1.dropWhile wordChar).length := dropWhile_length_le _ _
                  have h2 : (s1.dropWhile wordChar).length ≤ s1.length :=
                    dropWhile_length_le _ _
                  rw [heq4] at h1
                  simp only [List.length_cons] at h1
                  omega
                have h5 : s5.length + 1 ≤ s4.length := by
                  have h1 : (s4.dropWhile (fun ch => !(ch = ','))).length ≤ s4.length :=
                    dropWhile_length_le _ _
                  rw [heq5] at h1
                  simp only [List.length_cons] at h1
                  omega
                rw [← h]
                simp only [List.length_cons, nlBrace, List.length_cons, List.length_nil] at *
                omega
              · exact absurd h (by simp)
            · exact absurd h (by simp)
        · exact absurd h (by simp)
    · exact absurd h (by simp)

theorem findEntryFrom_rest_lt :
    ∀ s m, findEntryFrom s = some m → m.rest.length < s.length := by
  intro s
  induction s with
  | nil => intro m h; exact absurd h (by simp [findEntryFrom])
  | cons c t ih =>
    intro m h
    simp only [findEntryFrom] at h
    cases hm : matchEntryAt (c :: t) with
    | some r =>
      rw [hm] at h
      simp only [Option.some.injEq] at h
      rw [← h]
      exact matchEntryAt_rest_lt (c :: t) r hm
    | none =>
      rw [hm] at h
      have := ih m h
      simp only [List.length_cons]
      omega

theorem entryMatchesGo_fuel :
    ∀ f1 f2 s, s.length < f1 → s.length < f2 → entryMatchesGo f1 s = entryMatchesGo f2 s := by
  intro f1
  induction f1 with
  | zero => intro f2 s h1 _; omega
  | succ n ih =>
    intro f2 s h1 h2
    cases f2 with
    | zero => omega
    | succ k =>
      simp only [entryMatchesGo]
      cases hf : findEntryFrom s with
      | none => rfl
      | some r =>
        have hl := findEntryFrom_rest_lt s r hf
        show r :: entryMatchesGo n r.rest = r :: entryMatchesGo k r.rest
        rw [ih k r.rest (by omega) (by omega)]

theorem splitFirstChar_none_iff (c : Char) :
    ∀ l, splitFirstChar c l = none ↔ c ∉ l := by
  intro l
  induction l with
  | nil => simp [splitFirstChar]
  | cons a rest ih =>
    simp only [splitFirstChar, List.mem_cons]
    split
    · rename_i ha
      subst ha
      simp
    · rename_i ha
      cases hrec : splitFirstChar c rest with
      | none =>
        simp only [Option.map_none']
        constructor
        · intro _ hmem
          rcases hmem with h1 | h2
          · exact ha h1.symm
          · exact (ih.mp hrec) h2
        · intro _; trivial
      | some p =>
        simp only [Option.map_some']
        constructor
        · intro h; exact absurd h (by simp)
        · intro h
          have h2 : c ∉ rest := fun hm => h (Or.inr hm)
          rw [ih.mpr h2] at hrec
          exact absurd hrec (by simp)

theorem pfcFold_eq :
    ∀ ps fields, pfcFold ps fields = some (ps.foldl
      (fun fields part =>
        match splitFirstChar '=' part with
        | none => fields
        | some (k, v) =>
          fields ++ [(String.mk ((stripL k).map Char.toLower), String.mk (stripL v))])
      fields) := by
  intro ps
  induction ps with
  | nil => intro fields; rfl
  | cons part rest ih =>
    intro fields
    simp only [pfcFold, List.foldl_cons]
    by_cases hc : '=' ∈ part
    · rw [if_pos hc]
      cases hs : splitFirstChar '=' part with
      | none => exact absurd ((splitFirstChar_none_iff '=' part).mp hs) (by simp [hc])
      | some kv =>
        obtain ⟨k, v⟩ := kv
        exact ih _
    · rw [if_neg hc]
      rw [(splitFirstChar_none_iff '=' part).mpr hc]
      exact ih _

theorem parse_fieldsChecked_eq (body : String) :
    parse_fieldsChecked body = some (parse_fields body) :=
  pfcFold_eq (pfParts body.data) []

theorem pbcGo_eq : ∀ ms out, pbcGo ms out = some (out ++ ms.filterMap buildItem) := by
  intro ms
  induction ms with
  | nil => intro out; simp [pbcGo]
  | cons m rest ih =>
    intro out
    simp only [pbcGo, List.filterMap_cons]
    rw [parse_fieldsChecked_eq]
    simp only [buildItem]
    by_cases h : clean_tex (getF (parse_fields (String.mk m.body)) "title") = ""
    · rw [if_pos h, if_pos h, ih]
    · rw [if_neg h, if_neg h, ih]
      simp

theorem pfStep_depth_nonneg (st : PFState) (ch : Char) (h : 0 ≤ st.depth) :
    0 ≤ (pfStep st ch).depth := by
  simp only [pfStep]
  repeat' split
  all_goals simp_all
  all_goals omega

theorem pfScan_depth_nonneg : ∀ (l : List Char) (st : PFState), 0 ≤ st.depth →
    0 ≤ (l.foldl pfStep st).depth := by
  intro l
  induction l with
  | nil => intro st h; simpa using h
  | cons c t ih => intro st h; exact ih _ (pfStep_depth_nonneg st c h)

theorem startsWith_asPrefix {p s : String} (h : startsWithS p s = true) : p.data <+: s.data :=
  List.isPrefixOf_iff_prefix.mp h

theorem startsWith_of_shorter {p q : String} (s : String) (hpq : p.data <+: q.data)
    (h : startsWithS q s = true) : startsWithS p s = true :=
  List.isPrefixOf_iff_prefix.mpr (hpq.trans (startsWith_asPrefix h))

theorem startsWith_both {p q s : String} (hp : startsWithS p s = true)
    (hq : startsWithS q s = true) (hl : p.data.length ≤ q.data.length) :
    p.data <+: q.data :=
  List.prefix_of_prefix_length_le (startsWith_asPrefix hp) (startsWith_asPrefix hq) hl

theorem startsWith_ne_empty {p s : String} (h : startsWithS p s = true) (hp : p.data ≠ []) :
    s ≠ "" := by
  intro hs
  rw [hs] at h
  exact hp (List.prefix_nil.mp (startsWith_asPrefix h))

/-- The output of fix_doi_url never begins with the bare-DOI marker: every
branch of the function either returns the empty string, a string carrying
the doi resolver as a prefix, or a string that failed the bare-DOI test. -/
theorem fix_doi_url_not_ten (x : String) : startsWithS "10." (fix_doi_url x) = false := by
  simp only [fix_doi_url]
  split
  · decide
  · split
    · rename_i h2
      rw [Bool.eq_false_iff]
      intro hb
      have hc := startsWith_both hb h2 (by decide)
      exact absurd hc (by decide)
    · split
      · rename_i h3
        rw [Bool.eq_false_iff]
        intro hb
        have hd : ("https://doi.org/" ++ stripSchemeHttp (pyReplaceDoi (clean_tex x))).data
            = ("https://doi.org/").data ++ (stripSchemeHttp (pyReplaceDoi (clean_tex x))).data :=
          String.data_append _ _
        have hp2 : ("https://doi.org/").data
            <+: ("https://doi.org/" ++ stripSchemeHttp (pyReplaceDoi (clean_tex x))).data := by
          rw [hd]; exact List.prefix_append _ _
        have hb2 := startsWith_asPrefix hb
        have hc := List.prefix_of_prefix_length_le hb2 hp2 (by decide)
        exact absurd hc (by decide)
      · rename_i h3
        simpa using h3

/-- C1 (amended): when the cleaned value is non-empty, is not a doi.org
URL after upgrading the http resolver, and does not begin with the
bare-DOI marker after stripping a leading scheme, canonicalize_link
returns the cleaned, upgraded, scheme-stripped value unchanged — it
passes unrecognized strings through instead of discarding them; in
particular the string of words maps to itself. -/
theorem fix_doi_url_unrecognized :
    fix_doi_url "not a url" = "not a url" ∧
    ∀ raw : String, clean_tex raw ≠ "" →
      startsWithS "https://doi.org/" (pyReplaceDoi (clean_tex raw)) = false →
      startsWithS "10." (stripSchemeHttp (pyReplaceDoi (clean_tex raw))) = false →
      fix_doi_url raw = stripSchemeHttp (pyReplaceDoi (clean_tex raw)) := by
  constructor
  · decide
  · intro raw h1 h2 h3
    simp [fix_doi_url, h1, h2, h3]

/-- C1 witness: the general clause evaluated at the concrete input of
the claim. -/
theorem fix_doi_url_unrecognized_witness :
    fix_doi_url "not a url" = stripSchemeHttp (pyReplaceDoi (clean_tex "not a url")) :=
  fix_doi_url_unrecognized.2 "not a url" (by decide) (by decide) (by decide)

/-- C1 counterexample: the claim says canonicalize_link of the string of
words is the empty string; the code returns the string itself. -/
theorem fix_doi_url_unrecognized_cx : ¬ (fix_doi_url "not a url" = "") := by decide

/-- C2 (amended): for a cleaned absolute URL that is not a doi.org URL
and not a bare DOI after scheme stripping, canonicalize_link returns the
cleaned value with a single leading http or https scheme removed; an
absolute URL with any other scheme is returned unchanged, because only
the http and https schemes are stripped. -/
theorem fix_doi_url_url_scheme_stripped :
    (∀ raw : String, startsWithS "https://" (clean_tex raw) = true →
      pyReplaceDoi (clean_tex raw) = clean_tex raw →
      startsWithS "https://doi.org/" (clean_tex raw) = false →
      startsWithS "10." (dropS 8 (clean_tex raw)) = false →
      fix_doi_url raw = dropS 8 (clean_tex raw)) ∧
    (∀ raw : String, startsWithS "http://" (clean_tex raw) = true →
      pyReplaceDoi (clean_tex raw) = clean_tex raw →
      startsWithS "10." (dropS 7 (clean_tex raw)) = false →
      fix_doi_url raw = dropS 7 (clean_tex raw)) ∧
    (∀ raw : String, clean_tex raw ≠ "" →
      startsWithS "http://" (clean_tex raw) = false →
      startsWithS "https://" (clean_tex raw) = false →
      pyReplaceDoi (clean_tex raw) = clean_tex raw →
      startsWithS "10." (clean_tex raw) = false →
      fix_doi_url raw = clean_tex raw) := by
  refine ⟨?_, ?_, ?_⟩
  · intro raw hs hrep hdoi hten
    have hne : clean_tex raw ≠ "" := startsWith_ne_empty hs (by decide)
    have hstrip : stripSchemeHttp (clean_tex raw) = dropS 8 (clean_tex raw) := by
      simp only [stripSchemeHttp]
      rw [hs]
      simp
    simp only [fix_doi_url]
    rw [if_neg hne, hrep, hdoi]
    simp only [Bool.false_eq_true, if_false]
    rw [hstrip, hten]
    simp
  · intro raw hh hrep hten
    have hne : clean_tex raw ≠ "" := startsWith_ne_empty hh (by decide)
    have hdoi : startsWithS "https://doi.org/" (clean_tex raw) = false := by
      rw [Bool.eq_false_iff]
      intro hd
      exact absurd (startsWith_both hh hd (by decide)) (by decide)
    have hhs : startsWithS "https://" (clean_tex raw) = false := by
      rw [Bool.eq_false_iff]
      intro hd
      exact absurd (startsWith_both hh hd (by decide)) (by decide)
    have hstrip : stripSchemeHttp (clean_tex raw) = dropS 7 (clean_tex raw) := by
      simp only [stripSchemeHttp]
      rw [hhs, hh]
      simp
    simp only [fix_doi_url]
    rw [if_neg hne, hrep, hdoi]
    simp only [Bool.false_eq_true, if_false]
    rw [hstrip, hten]
    simp
  · intro raw hne hh hhs hrep hten
    have hdoi : startsWithS "https://doi.org/" (clean_tex raw) = false := by
      rw [Bool.eq_false_iff]
      intro hd
      have hw : ("https://").data <+: ("https://doi.org/").data :=
        ⟨("doi.org/").data, by decide⟩
      have := startsWith_of_shorter (clean_tex raw) hw hd
      rw [this] at hhs
      exact absurd hhs (by simp)
    have hstrip : stripSchemeHttp (clean_tex raw) = clean_tex raw := by
      simp only [stripSchemeHttp]
      rw [hhs, hh]
      simp
    simp only [fix_doi_url]
    rw [if_neg hne, hrep, hdoi]
    simp only [Bool.false_eq_true, if_false]
    rw [hstrip, hten]
    simp

/-- C2 witness: the three clauses evaluated at an https URL, an http URL
and an ftp URL. -/
theorem fix_doi_url_url_scheme_stripped_witness :
    fix_doi_url "https://example.com/x" = dropS 8 (clean_tex "https://example.com/x") ∧
    fix_doi_url "http://example.com/x" = dropS 7 (clean_tex "http://example.com/x") ∧
    fix_doi_url "ftp://example.com/x" = clean_tex "ftp://example.com/x" :=
  ⟨fix_doi_url_url_scheme_stripped.1 "https://example.com/x"
      (by decide) (by decide) (by decide) (by decide),
    fix_doi_url_url_scheme_stripped.2.1 "http://example.com/x"
      (by decide) (by decide) (by decide),
    fix_doi_url_url_scheme_stripped.2.2 "ftp://example.com/x"
      (by decide) (by decide) (by decide) (by decide) (by decide)⟩

/-- C2 counterexample: the claim says an absolute https URL that is not a
DOI is returned unchanged, scheme included; the code strips the scheme. -/
theorem fix_doi_url_url_scheme_stripped_cx :
    ¬ (fix_doi_url "https://example.com/x" = "https://example.com/x") := by decide

/-- C3 (amended): no emitted Record contains a webnote or any other
secondary annotation field — the key list of the emitted dict is fixed
and contains no such key; the clean_text of the first present-and-truthy
of the note field and the pubstate field is emitted as the single note
field instead. -/
theorem record_no_webnote :
    ∀ (text : String) (r : Record), r ∈ parse_bibtex text →
      ((record_items r).all (fun kv => kv.1 != "webnote")) = true ∧
      ∃ m ∈ entryMatches text.data, buildItem m = some r ∧
        r.note = clean_tex (pyOr (getF (parse_fields (String.mk m.body)) "note")
          (getF (parse_fields (String.mk m.body)) "pubstate")) := by
  intro text r hr
  constructor
  · simp [record_items]
  · rw [parse_bibtex] at hr
    obtain ⟨m, hm, hb⟩ := List.mem_filterMap.mp hr
    refine ⟨m, hm, hb, ?_⟩
    simp only [buildItem] at hb
    split at hb
    · exact absurd hb (by simp)
    · simp only [Option.some.injEq] at hb
      rw [← hb]
      rfl

/-- C3 witness: the theorem applied to a concrete document whose single
entry has a pubstate field. -/
theorem record_no_webnote_witness :
    ((record_items recForthcoming).all (fun kv => kv.1 != "webnote")) = true :=
  (record_no_webnote docForthcoming recForthcoming (by decide)).1

/-- C3 counterexample: a concrete entry with a pubstate field yields
exactly one record; none of the keys of its emitted dict is webnote, and
the cleaned pubstate value appears as the note field. -/
theorem record_no_webnote_cx :
    (parse_bibtex "@misc\x7bk,\ntitle = \x7bT\x7d,\npubstate = \x7bforthcoming\x7d\n\x7d\n").map
        (fun r => ((record_items r).all (fun kv => kv.1 != "webnote"), r.note))
      = [(true, "forthcoming")] := by decide

/-- C4 (amended): the Entry Extractor takes the body to be all text after
the identifier comma up to the FIRST occurrence of a newline immediately
followed by a closing brace: every match splits its after-comma text at
that terminator, the text decomposes as body, terminator, rest, and no
earlier position of the text carries the terminator.  The closing brace
need not be the sole non-whitespace content of its line, and no matching
relative to the opening brace is performed. -/
theorem entry_body_first_terminator :
    (∀ s m, matchEntryAt s = some m →
      ∃ t, splitFirstSubstr nlBrace t = some (m.body, m.rest)) ∧
    (∀ t b r, splitFirstSubstr nlBrace t = some (b, r) →
      t = b ++ nlBrace ++ r ∧ ∀ i, i < b.length → nlBrace.isPrefixOf (t.drop i) = false) := by
  constructor
  · intro s m h
    cases s with
    | nil => exact absurd h (by simp [matchEntryAt])
    | cons c s1 =>
      simp only [matchEntryAt] at h
      split at h
      · split at h
        · exact absurd h (by simp)
        · split at h
          · split at h
            · exact absurd h (by simp)
            · split at h
              · rename_i s5 heq5
                split at h
                · rename_i p b r heqs
                  simp only [Option.some.injEq] at h
                  rw [← h]
                  exact ⟨s5, heqs⟩
                · exact absurd h (by simp)
              · exact absurd h (by simp)
          · exact absurd h (by simp)
      · exact absurd h (by simp)
  · intro t b r h
    exact ⟨splitFirstSubstr_eq nlBrace t b r h, splitFirstSubstr_min nlBrace t b r h⟩

/-- C4 witness: both clauses evaluated on a concrete entry. -/
theorem entry_body_first_terminator_witness :
    (∃ t, splitFirstSubstr nlBrace t
        = some (("\ntitle = \x7bT\x7d").data, ("\n").data)) ∧
    ("\ntitle = \x7bT\x7d\n\x7d\n").data
        = ("\ntitle = \x7bT\x7d").data ++ nlBrace ++ ("\n").data :=
  ⟨entry_body_first_terminator.1 docTitleT.data matchTitleT (by decide),
    (entry_body_first_terminator.2 ("\ntitle = \x7bT\x7d\n\x7d\n").data
      ("\ntitle = \x7bT\x7d").data ("\n").data (by decide)).1⟩

/-- C4 counterexample: on a document whose entry has a closing brace line
with trailing text, the extractor stops at the first newline-brace pair
even though that brace is not the sole non-whitespace content of its
line, while the body rule worded by the claim (modelled by
specSoleBraceBody) extends the body to the last sole-content brace
line. -/
theorem entry_body_terminator_cx :
    (entryMatches ("@a\x7bx,\nf=\x7bv\x7d,\n\x7d tail\n\x7d\n").data).map (fun m => m.body)
        = [("\nf=\x7bv\x7d,").data] ∧
    specSoleBraceBody ("\nf=\x7bv\x7d,\n\x7d tail\n\x7d\n").data
        = some ("\nf=\x7bv\x7d,\n\x7d tail").data ∧
    ("\nf=\x7bv\x7d,").data ≠ ("\nf=\x7bv\x7d,\n\x7d tail").data := by decide

/-- C5: every Record in the output of parse_bibtex has a non-empty title,
and conversely every extracted entry whose title field cleans to a
non-empty string contributes its record to the output — the title test is
the sole filtering rule. -/
theorem parse_bibtex_title_filter (text : String) :
    (∀ r ∈ parse_bibtex text, r.title ≠ "") ∧
    (∀ m ∈ entryMatches text.data,
      clean_tex (getF (parse_fields (String.mk m.body)) "title") ≠ "" →
        ∃ r, buildItem m = some r ∧ r ∈ parse_bibtex text) := by
  constructor
  · intro r hr
    rw [parse_bibtex] at hr
    obtain ⟨m, hm, hb⟩ := List.mem_filterMap.mp hr
    simp only [buildItem] at hb
    split at hb
    · exact absurd hb (by simp)
    · rename_i ht
      simp only [Option.some.injEq] at hb
      rw [← hb]
      exact ht
  · intro m hm ht
    refine ⟨mkItem m (parse_fields (String.mk m.body)), ?_, ?_⟩
    · simp only [buildItem]
      rw [if_neg ht]
    · rw [parse_bibtex]
      refine List.mem_filterMap.mpr ⟨m, hm, ?_⟩
      simp only [buildItem]
      rw [if_neg ht]

/-- C5 witness: both clauses evaluated on a concrete one-entry document. -/
theorem parse_bibtex_title_filter_witness :
    recTitleT.title ≠ "" ∧
    ∃ r, buildItem matchTitleT = some r ∧ r ∈ parse_bibtex docTitleT :=
  ⟨(parse_bibtex_title_filter docTitleT).1 recTitleT (by decide),
    (parse_bibtex_title_filter docTitleT).2 matchTitleT (by decide) (by decide)⟩

/-- C6: a keywords field whose braced value contains commas splits as a
single field whose split_tags value is the three tags, and in general the
scan step treats a comma as a field separator exactly when the depth is
zero and the quote flag is off: at depth zero outside quotes a comma
flushes the buffer into the parts, otherwise it is appended to the
buffer like any other character. -/
theorem keywords_single_field :
    parse_fields "keywords = \x7ba, b, c\x7d" = [("keywords", "\x7ba, b, c\x7d")] ∧
    split_tags "\x7ba, b, c\x7d" = ["a", "b", "c"] ∧
    ∀ st : PFState,
      (st.depth = 0 ∧ st.in_quotes = false →
        (pfStep st ',').buf = [] ∧
        (pfStep st ',').parts
          = st.parts ++ (if stripL st.buf = [] then [] else [stripL st.buf])) ∧
      (¬ (st.depth = 0 ∧ st.in_quotes = false) →
        (pfStep st ',').buf = st.buf ++ [','] ∧ (pfStep st ',').parts = st.parts) := by
  refine ⟨by decide, by decide, ?_⟩
  intro st
  constructor
  · intro h
    simp [pfStep, h.1, h.2]
  · intro h
    simp [pfStep, h]

/-- C6 witness: the step clauses evaluated at the start state and at a
depth-one state. -/
theorem keywords_single_field_witness :
    ((pfStep pfStart ',').buf = [] ∧
      (pfStep pfStart ',').parts
        = pfStart.parts ++ (if stripL pfStart.buf = [] then [] else [stripL pfStart.buf])) ∧
    ((pfStep pfDepthOne ',').buf = pfDepthOne.buf ++ [','] ∧
      (pfStep pfDepthOne ',').parts = pfDepthOne.parts) :=
  ⟨(keywords_single_field.2.2 pfStart).1 (by decide),
    (keywords_single_field.2.2 pfDepthOne).2 (by decide)⟩

/-- C7 (amended): canonicalize_link is idempotent on every input whose
output is a fixed point of clean_tex and of the doi resolver upgrade and
does not begin with an http scheme, nor with an https scheme other than
the doi resolver itself; outputs carrying a second scheme are re-stripped
on the second pass and escape this guarantee. -/
theorem fix_doi_url_idem_cond (x : String)
    (h1 : clean_tex (fix_doi_url x) = fix_doi_url x)
    (h2 : pyReplaceDoi (fix_doi_url x) = fix_doi_url x)
    (h3 : startsWithS "http://" (fix_doi_url x) = false)
    (h4 : startsWithS "https://" (fix_doi_url x) = false
        ∨ startsWithS "https://doi.org/" (fix_doi_url x) = true) :
    fix_doi_url (fix_doi_url x) = fix_doi_url x := by
  have hten := fix_doi_url_not_ten x
  by_cases h0 : fix_doi_url x = ""
  · rw [h0]
    decide
  · generalize hy : fix_doi_url x = y at *
    simp only [fix_doi_url]
    rw [h1, if_neg h0, h2]
    rcases h4 with h4 | h4
    · have hdoi : startsWithS "https://doi.org/" y = false := by
        rw [Bool.eq_false_iff]
        intro hd
        have hw : ("https://").data <+: ("https://doi.org/").data :=
          ⟨("doi.org/").data, by decide⟩
        have hcon := startsWith_of_shorter y hw hd
        rw [hcon] at h4
        exact absurd h4 (by simp)
      rw [hdoi]
      simp only [Bool.false_eq_true, if_false]
      have hstrip : stripSchemeHttp y = y := by
        simp only [stripSchemeHttp]
        rw [h4, h3]
        simp
      rw [hstrip, hten]
      simp
    · rw [h4]
      simp

/-- C7 witness: the theorem applied to a bare DOI, whose output is a
stable doi.org URL. -/
theorem fix_doi_url_idem_cond_witness :
    fix_doi_url (fix_doi_url "10.5/abc") = fix_doi_url "10.5/abc" :=
  fix_doi_url_idem_cond "10.5/abc" (by decide) (by decide) (by decide) (Or.inr (by decide))

/-- C7 counterexample: a value with a doubled scheme breaks idempotence:
the first pass strips one scheme and returns a string that the second
pass converts to a doi.org URL. -/
theorem fix_doi_url_idem_cx :
    ¬ (fix_doi_url (fix_doi_url "http://https://10.1") = fix_doi_url "http://https://10.1") := by
  decide

/-- C8: an entry whose year cleans to a non-empty string and whose date
field is absent or cleans empty yields a record with that year and with
the year suffixed by January first as its date; concretely, a braced
year of 2020 with no date yields the year 2020 and the date 2020-01-01. -/
theorem year_fallback_date :
    parse_bibtex docYear = [recYear] ∧
    ∀ (m : RawMatch) (r : Record), buildItem m = some r →
      clean_tex (getF (parse_fields (String.mk m.body)) "date") = "" →
      clean_tex (getF (parse_fields (String.mk m.body)) "year") ≠ "" →
      r.year = clean_tex (getF (parse_fields (String.mk m.body)) "year") ∧
      r.date = clean_tex (getF (parse_fields (String.mk m.body)) "year") ++ "-01-01" := by
  constructor
  · decide
  · intro m r hb hd hy
    simp only [buildItem, mkItem] at hb
    split at hb
    · exact absurd hb (by simp)
    · simp only [Option.some.injEq] at hb
      obtain ⟨rid, rty, rti, rau, rve, rye, rda, rdo, rno, rke⟩ := r
      simp only [Record.mk.injEq] at hb
      dsimp only
      constructor
      · rw [← hb.2.2.2.2.2.1]
        simp only [pick_year]
        rw [if_pos hy]
      · rw [← hb.2.2.2.2.2.2.1]
        simp only [pick_date]
        rw [if_neg (fun hcon => hcon hd), if_pos hy]

/-- C8 witness: the general clause applied to the match and record of the
concrete document. -/
theorem year_fallback_date_witness :
    recYear.year = clean_tex (getF (parse_fields (String.mk matchYear.body)) "year") ∧
    recYear.date = clean_tex (getF (parse_fields (String.mk matchYear.body)) "year") ++ "-01-01" :=
  year_fallback_date.2 matchYear recYear (by decide) (by decide) (by decide)

/-- C9: the parsing core is total: the variant of parse_bibtex in which
every modelled exception point is explicit returns some list, equal to
the plain result, for every input text, and the fuel driving the entry
loop is irrelevant beyond the length of the text, so the loop terminates
on every input. -/
theorem parse_bibtex_total (text : String) :
    parse_bibtexChecked text = some (parse_bibtex text) ∧
    ∀ fuel, text.data.length < fuel →
      entryMatchesGo fuel text.data = entryMatches text.data := by
  constructor
  · simp only [parse_bibtexChecked, parse_bibtex]
    rw [pbcGo_eq]
    simp
  · intro fuel hf
    rw [entryMatches]
    exact entryMatchesGo_fuel fuel (text.data.length + 1) text.data hf (by omega)

/-- C9 witness: the theorem applied to a concrete document and a concrete
fuel beyond its length. -/
theorem parse_bibtex_total_witness :
    parse_bibtexChecked docYear = some (parse_bibtex docYear) ∧
    entryMatchesGo 100 docYear.data = entryMatches docYear.data :=
  ⟨(parse_bibtex_total docYear).1, (parse_bibtex_total docYear).2 100 (by decide)⟩

/-- C10: the brace-depth counter of the field-splitter scan never becomes
negative: after scanning any text from the start state the depth is
non-negative; an unquoted closing brace at depth zero leaves the depth at
zero, and a comma after such an unmatched closing brace still separates
fields. -/
theorem scan_depth_invariant :
    (∀ l : List Char, 0 ≤ (l.foldl pfStep pfStart).depth) ∧
    (pfStep pfStart '\x7d').depth = 0 ∧
    parse_fields "a=1\x7d,b=2" = [("a", "1\x7d"), ("b", "2")] := by
  refine ⟨?_, by decide, by decide⟩
  intro l
  exact pfScan_depth_nonneg l pfStart (by decide)
